import Mathlib

/-
Verification of the Part 3 model-training-and-evaluation pipeline
(notebook `Part_3_Model_Training_and_Evaluation.ipynb`).

The notebook's numeric pipeline is embedded over exact rationals:
matrices are lists of rows (or explicit update functions where the
source fills a numpy array column by column), the ambient numpy global
random generator is an explicit stream argument, and the library
classifier (`sklearn` LinearSVC / RandomForestClassifier) is an
abstract record of its scoring interface.  The helper module
`modules/feature_extractor.py` is not part of the repository snapshot,
so `softmax` and `normalizeTF` are modelled from the specification and
are marked as such in their doc comments.
-/

/-- Dot product of two rational vectors, `np.dot` on one row. -/
def dotQ (xs ys : List ℚ) : ℚ := (List.zipWith (fun a b => a * b) xs ys).sum

/-- Elementwise product of two rational vectors, numpy `*` broadcasting of a
feature row against a weight column. -/
def scaleVec (v w : List ℚ) : List ℚ := List.zipWith (fun a b => a * b) v w

/-- Embedding of `np.unique`: the distinct values of a list, sorted ascending. -/
def npUnique (l : List ℕ) : List ℕ := List.insertionSort (fun a b => a ≤ b) l.dedup

/-- Cell 6 of the notebook: `uniqueAnswerId = list(np.unique(trainQ['AnswerId']))`. -/
def uniqueAnswerId (trainAnswerIds : List ℕ) : List ℕ := npUnique trainAnswerIds

/-- Inside `ovrClassifier`: `uniqueLabel = np.unique(trainLabels)`. -/
def uniqueLabel (trainLabels : List ℕ) : List ℕ := npUnique trainLabels

/-- Column `i` of `dummyLabels = pd.get_dummies(trainLabels)` at row `q`:
`pd.get_dummies` orders its columns by the sorted distinct label values,
so column `i` is the indicator of label `uniqueLabel[i]`. -/
def ovrDummy (trainLabels : List ℕ) (i q : ℕ) : ℕ :=
  if trainLabels.getD q 0 = (uniqueLabel trainLabels).getD i 0 then 1 else 0

/-- `posIdx = np.where(Y_train_all == 1)[0]` in `ovrClassifier`:
ascending indices of the training questions labelled with class `i`. -/
def ovrPosIdx (trainLabels : List ℕ) (i : ℕ) : List ℕ :=
  (List.range trainLabels.length).filter (fun q => decide (ovrDummy trainLabels i q = 1))

/-- `np.where(Y_train_all == 0)[0]` in `ovrClassifier`: ascending indices of
the training questions not labelled with class `i` (the negative pool). -/
def ovrNegPool (trainLabels : List ℕ) (i : ℕ) : List ℕ :=
  (List.range trainLabels.length).filter (fun q => decide (ovrDummy trainLabels i q = 0))

/-- Embedding of `np.random.choice(pool, size)`: `size` draws from `pool`,
each independently uniform, WITH replacement (numpy's default `replace=True`).
The ambient global generator is the stream `rng`; draw `k` picks the element
at position `rng k mod pool.length`.  No cap on `size` is applied, matching
the source. -/
def npRandomChoice (pool : List ℕ) (size : ℕ) (rng : ℕ → ℕ) : List ℕ :=
  (List.range size).map (fun k => pool.getD (rng k % pool.length) 0)

/-- `negIdx = np.random.choice(np.where(Y_train_all == 0)[0], ratio*len(posIdx))`
in `ovrClassifier`. -/
def ovrNegIdx (trainLabels : List ℕ) (ratio i : ℕ) (rng : ℕ → ℕ) : List ℕ :=
  npRandomChoice (ovrNegPool trainLabels i) (ratio * (ovrPosIdx trainLabels i).length) rng

/-- The negative-sampling draw as it occurs in one pipeline run (cell 16).
The notebook fixes `random_state=1` on the SVM and on the forest; those two
seeds are the only explicit seeds in the run, and neither reaches
`np.random.choice`, which reads the ambient global numpy generator
(embedded as `globalRng`).  The seed parameters are recorded here precisely
to show they do not enter the draw. -/
def negSampleInRun (svmRandomState rfRandomState : ℕ) (globalRng : ℕ → ℕ)
    (trainLabels : List ℕ) (ratio i : ℕ) : List ℕ :=
  ovrNegIdx trainLabels ratio i globalRng

/-- Abstract interface of an `sklearn` binary classifier as used by
`ovrClassifier`: `fit` followed by scoring is modelled as a function of the
training set (feature vector and 0/1 label per example) and one test vector.
`hasDecisionFunction` is `hasattr(clf, "decision_function")`. -/
structure Clf where
  hasDecisionFunction : Bool
  decisionFunction : List (List ℚ × ℕ) → List ℚ → ℚ
  predictProbaPos : List (List ℚ × ℕ) → List ℚ → ℚ

/-- The training set assembled for class `i` in one iteration of the
`ovrClassifier` loop: pairs `(X_train[k], Y_train[k])`.
With `ratio = some r`, rows are selected by `allIdx = posIdx ++ negIdx`
(subsampling branch); with `ratio = none` all rows are kept in frame order. -/
def ovrTrainSet (trainLabels : List ℕ) (x_wTrainT W : List (List ℚ))
    (ratio : Option ℕ) (rng : ℕ → ℕ) (i : ℕ) : List (List ℚ × ℕ) :=
  let X_train_all := x_wTrainT.map (fun v => scaleVec v (W.getD i []))
  match ratio with
  | some r =>
      let allIdx := ovrPosIdx trainLabels i ++ ovrNegIdx trainLabels r i rng
      allIdx.map (fun q => (X_train_all.getD q [], ovrDummy trainLabels i q))
  | none =>
      (List.range trainLabels.length).map
        (fun q => (X_train_all.getD q [], ovrDummy trainLabels i q))

/-- `clf.decision_function(x)` if the classifier exposes one, else
`clf.predict_proba(x)[:, 1]` (positive-class probability). -/
def ovrScoreFor (clf : Clf) (trainSet : List (List ℚ × ℕ)) (x : List ℚ) : ℚ :=
  if clf.hasDecisionFunction then clf.decisionFunction trainSet x
  else clf.predictProbaPos trainSet x

/-- Entry `t` of the column written by iteration `i` of the `ovrClassifier`
loop: the classifier is fitted on `ovrTrainSet` and scored on row `t` of
`X_test = x_wTest.T * NBWeights[:, i]`.  `rng i` is the slice of the global
generator consumed by class `i`'s draw. -/
def ovrColFun (clf : Clf) (trainLabels : List ℕ)
    (x_wTrainT x_wTestT W : List (List ℚ)) (ratio : Option ℕ)
    (rng : ℕ → ℕ → ℕ) (i t : ℕ) : ℚ :=
  ovrScoreFor clf (ovrTrainSet trainLabels x_wTrainT W ratio (rng i) i)
    (scaleVec (x_wTestT.getD t []) (W.getD i []))

/-- Modelled from the spec: `softmax` lives in `modules/feature_extractor.py`,
which is absent from the repository snapshot.  The spec prescribes a
numerically stable per-row softmax (subtract the row max before
exponentiating, then divide by the row sum of exponentials).  The
exponential is an abstract function `E` so the embedding stays exact. -/
def softmaxRow (E : ℚ → ℚ) (xs : List ℚ) : List ℚ :=
  let m := xs.foldl (fun a b => if a ≤ b then b else a) (xs.headD 0)
  let exps := xs.map (fun x => E (x - m))
  exps.map (fun e => e / exps.sum)

/-- The `ovrClassifier` function of the notebook (cell 15).
`x_wTrainT` and `x_wTestT` are `x_wTrain.T` and `x_wTest.T` (rows =
questions); `W` is `NBWeights` as its list of class columns.
`Y_test_prob = np.zeros(...)` is the numpy array being filled, embedded as
an update function; the loop writes column `i` at iteration `i`; the result
is `softmax(Y_test_prob)` applied per question row. -/
def ovrClassifier (E : ℚ → ℚ) (clf : Clf) (trainLabels : List ℕ)
    (x_wTrainT x_wTestT W : List (List ℚ)) (ratio : Option ℕ)
    (rng : ℕ → ℕ → ℕ) : List (List ℚ) :=
  let numClasses := (uniqueLabel trainLabels).length
  let numTest := x_wTestT.length
  let Y_test_prob : ℕ → ℕ → ℚ :=
    (List.range numClasses).foldl
      (fun M i => fun t j =>
        if j = i then ovrColFun clf trainLabels x_wTrainT x_wTestT W ratio rng i t
        else M t j)
      (fun _ _ => 0)
  (List.range numTest).map
    (fun t => softmaxRow E ((List.range numClasses).map (fun j => Y_test_prob t j)))

/-- Modelled from the spec: `normalizeTF` lives in
`modules/feature_extractor.py`, which is absent from the repository
snapshot.  The spec defines it as each question's raw in-vocabulary token
counts divided (L1-normalised) by the question's total in-vocabulary token
count, with an all-zero column for a question with no recognised tokens.
This embedding is the transposed matrix (rows = questions), which is the
form `x_w.T` used at every call site; questions are token-id lists over a
vocabulary `0, ..., numTokens - 1`.  Rational division by zero is zero, so
the zero-count row is handled without error exactly as the spec demands. -/
def normalizeTFT (numTokens : ℕ) (questions : List (List ℕ)) : List (List ℚ) :=
  questions.map (fun toks =>
    let counts := (List.range numTokens).map
      (fun w => ((toks.filter (fun x => decide (x = w))).length : ℚ))
    counts.map (fun c => c / counts.sum))

/-- Cell 11 of the notebook: `beta_A = 0`. -/
def beta_A : ℚ := 0

/-- Cell 11 of the notebook:
`Y_test_prob1 = softmax(-beta_A + np.dot(x_wTest.T, NBWeights))`,
with `x_wTest = normalizeTF(testQ, token2IdHash)`.
`W` is `NBWeights` as its list of class columns, so entry `(q, i)` of the
matrix product is the dot product of question `q`'s normalised TF row with
column `i`. -/
def Y_test_prob1 (E : ℚ → ℚ) (numTokens : ℕ) (testQtokens : List (List ℕ))
    (W : List (List ℚ)) : List (List ℚ) :=
  (normalizeTFT numTokens testQtokens).map
    (fun xrow => softmaxRow E (W.map (fun col => -beta_A + dotQ xrow col)))

/-- Elementwise mean of three rows: one row of
`np.mean([Y_test_prob1, Y_test_prob2, Y_test_prob3], axis=0)`. -/
def ewMean3 : List ℚ → List ℚ → List ℚ → List ℚ
  | a :: as, b :: bs, c :: cs => (a + b + c) / 3 :: ewMean3 as bs cs
  | _, _, _ => []

/-- Cell 18 of the notebook:
`Y_test_prob_aggr = np.mean([Y_test_prob1, Y_test_prob2, Y_test_prob3], axis=0)`. -/
def Y_test_prob_aggr : List (List ℚ) → List (List ℚ) → List (List ℚ) → List (List ℚ)
  | r :: P, s :: Q, t :: R => ewMean3 r s t :: Y_test_prob_aggr P Q R
  | _, _, _ => []

/-- Embedding of `np.argsort(-scores)` for one score row: the class
positions `0, ..., scores.length - 1` rearranged so the scores are
descending. -/
def argsortDesc (scores : List ℚ) : List ℕ :=
  List.insertionSort (fun i j => scores.getD j 0 ≤ scores.getD i 0)
    (List.range scores.length)

/-- `frame['SortedAnswers']` for one question:
`np.array(uniqueAnswerId)[np.argsort(-scores)]`. -/
def sortedAnswersRow (scores : List ℚ) (uniq : List ℕ) : List ℕ :=
  (argsortDesc scores).map (fun i => uniq.getD i 0)

/-- The body of the `rank` loop for one question:
`np.where(frame['SortedAnswers'].iloc[i] == frame['AnswerId'].iloc[i])[0][0] + 1`.
Taking `[0][0]` of an empty match raises `IndexError` in the source; the
embedding returns `none` in exactly that case. -/
def rankRow (scores : List ℚ) (uniq : List ℕ) (answerId : ℕ) : Option ℕ :=
  let sa := sortedAnswersRow scores uniq
  if answerId ∈ sa then some (sa.indexOf answerId + 1) else none

/-- Cell 21 of the notebook: `AR = np.floor(testQ['Rank'].mean())`. -/
def AR (ranks : List ℕ) : ℤ := Int.floor ((ranks.sum : ℚ) / (ranks.length : ℚ))

/-- The arithmetic mean of the rank column, `testQ['Rank'].mean()`. -/
def meanRank (ranks : List ℕ) : ℚ := (ranks.sum : ℚ) / (ranks.length : ℚ)

/-- Python's `round` tie behaviour on an exact value: round half to even. -/
def roundHalfEven (x : ℚ) : ℤ :=
  if x - Int.floor x < 1 / 2 then Int.floor x
  else if 1 / 2 < x - Int.floor x then Int.floor x + 1
  else if Int.floor x % 2 = 0 then Int.floor x else Int.floor x + 1

/-- Python's `round(x, 3)`: round to three decimal places. -/
def pyRound3 (x : ℚ) : ℚ := (roundHalfEven (x * 1000) : ℚ) / 1000

/-- Cell 21 of the notebook:
`top3 = round(len(testQ.query('Rank <= 3'))/len(testQ), 3)`. -/
def top3 (ranks : List ℕ) : ℚ :=
  pyRound3 (((ranks.filter (fun r => decide (r ≤ 3))).length : ℚ) / (ranks.length : ℚ))

/-- Concrete classifier used to exhibit the random-forest stage's dependence
on the unseeded global draw: its score is a function of the training set it
was fitted on, as any nondegenerate learner's is. -/
def clfC2 : Clf where
  hasDecisionFunction := true
  decisionFunction := fun ts x => ((ts.map (fun p => p.1.sum)).sum) * x.sum
  predictProbaPos := fun _ _ => 0

/- Helper lemmas shared by several claims. -/

lemma sum_map_div (l : List ℚ) (a : ℚ) :
    (l.map (fun x => x / a)).sum = l.sum / a := by
  induction l with
  | nil => simp
  | cons x xs ih => simp [ih, add_div]

lemma map_getD_range {α : Type} (l : List α) (d : α) :
    (List.range l.length).map (fun i => l.getD i d) = l := by
  apply List.ext_getElem
  · simp
  · intro i h1 h2
    simp [List.getD_eq_getElem?_getD, List.getElem?_eq_getElem h2]

lemma mapScale_getD (M : List (List ℚ)) (w : List ℚ) : ∀ q : ℕ,
    (M.map (fun v => scaleVec v w)).getD q [] = scaleVec (M.getD q []) w := by
  induction M with
  | nil => intro q; simp [scaleVec]
  | cons v M ih =>
      intro q
      cases q with
      | zero => rfl
      | succ q => simpa using ih q

lemma npUnique_perm_dedup (l : List ℕ) : List.Perm (npUnique l) l.dedup :=
  List.perm_insertionSort _ _

/-- Claim C8: a single fixed class ordering — the distinct training answer
ids sorted ascending — is produced both by cell 6's `uniqueAnswerId` and by
`np.unique(trainLabels)` inside `ovrClassifier` (and by the column order of
`pd.get_dummies`), so score-matrix columns are positionally aligned across
the three classifiers and the evaluator, which receives the same
`uniqueAnswerId` list. -/
theorem class_ordering_single (trainAnswerIds : List ℕ) :
    uniqueLabel trainAnswerIds = uniqueAnswerId trainAnswerIds ∧
      List.Sorted (fun a b => a < b) (uniqueAnswerId trainAnswerIds) ∧
      (uniqueAnswerId trainAnswerIds).Nodup ∧
      ∀ x : ℕ, x ∈ uniqueAnswerId trainAnswerIds ↔ x ∈ trainAnswerIds := by
  have hperm : List.Perm (npUnique trainAnswerIds) trainAnswerIds.dedup :=
    npUnique_perm_dedup trainAnswerIds
  have hnd : (npUnique trainAnswerIds).Nodup :=
    hperm.nodup_iff.mpr (List.nodup_dedup trainAnswerIds)
  have hs : List.Sorted (fun a b => a ≤ b) (npUnique trainAnswerIds) :=
    List.sorted_insertionSort _ _
  refine ⟨rfl, hs.lt_of_le hnd, hnd, fun x => ?_⟩
  rw [show uniqueAnswerId trainAnswerIds = npUnique trainAnswerIds from rfl,
    hperm.mem_iff, List.mem_dedup]

/-- Claim C1 (counterexample): with training labels `[1, 1, 1, 2]` and
`ratio = 3`, class `1` has three positives and a single available negative,
yet the draw requests `3 * 3 = 9` samples — more than the one available
negative — and the drawn index list repeats an element, so the draw is not
a without-replacement sample capped at the available negative count. -/
theorem negDraw_uncapped_with_replacement_cex :
    (ovrNegIdx [1, 1, 1, 2] 3 0 (fun _ => 0)).length = 9 ∧
      (ovrNegPool [1, 1, 1, 2] 0).length = 1 ∧
      ¬((ovrNegIdx [1, 1, 1, 2] 3 0 (fun _ => 0)).length ≤
          (ovrNegPool [1, 1, 1, 2] 0).length ∧
        (ovrNegIdx [1, 1, 1, 2] 3 0 (fun _ => 0)).Nodup) := by
  refine ⟨by decide, by decide, ?_⟩
  intro h
  revert h
  decide

/-- Claim C1 (amended): in `ovrClassifier` with subsampling enabled, the
negative draw for each class requests exactly `ratio * |positives|` samples
— uncapped, so the count can exceed the available negatives — drawn
uniformly WITH replacement from the negative pool: every drawn index lies
in the pool (when the pool is nonempty), but the draw need not be
duplicate-free. -/
theorem negDraw_count_and_pool (trainLabels : List ℕ) (ratio i : ℕ) (rng : ℕ → ℕ)
    (hpool : ovrNegPool trainLabels i ≠ []) :
    (ovrNegIdx trainLabels ratio i rng).length = ratio * (ovrPosIdx trainLabels i).length ∧
      ∀ q ∈ ovrNegIdx trainLabels ratio i rng, q ∈ ovrNegPool trainLabels i := by
  constructor
  · simp [ovrNegIdx, npRandomChoice]
  · intro q hq
    simp only [ovrNegIdx, npRandomChoice, List.mem_map, List.mem_range] at hq
    obtain ⟨k, -, rfl⟩ := hq
    have hlen : 0 < (ovrNegPool trainLabels i).length := List.length_pos.mpr hpool
    have hmod : rng k % (ovrNegPool trainLabels i).length <
        (ovrNegPool trainLabels i).length := Nat.mod_lt _ hlen
    rw [List.getD_eq_getElem _ _ hmod]
    exact List.getElem_mem _

theorem negDraw_count_and_pool_witness :
    ovrNegPool [1, 2] 0 ≠ [] ∧
      ((ovrNegIdx [1, 2] 2 0 (fun _ => 0)).length = 2 * (ovrPosIdx [1, 2] 0).length ∧
        ∀ q ∈ ovrNegIdx [1, 2] 2 0 (fun _ => 0), q ∈ ovrNegPool [1, 2] 0) :=
  ⟨by decide, negDraw_count_and_pool [1, 2] 2 0 (fun _ => 0) (by decide)⟩

/-- Claim C2 (counterexample): two runs of the pipeline with identical
inputs and identical explicit seeds (`random_state = 1` for both library
classifiers) but different ambient global numpy generator states draw
different negative training indices, and the resulting `Y_test_prob3`
matrices of the one-vs-rest stage differ — so fixing the explicit seeds
alone does not reproduce the score matrices, because the negative-sampling
draw accepts no explicit seed. -/
theorem rerun_same_seeds_not_identical :
    negSampleInRun 1 1 (fun _ => 0) [1, 2, 3] 1 0 ≠
        negSampleInRun 1 1 (fun _ => 1) [1, 2, 3] 1 0 ∧
      ovrClassifier (fun x => x) clfC2 [1, 2, 3] [[1], [2], [3]] [[1]]
          [[1], [1], [1]] (some 1) (fun _ _ => 0) ≠
        ovrClassifier (fun x => x) clfC2 [1, 2, 3] [[1], [2], [3]] [[1]]
          [[1], [1], [1]] (some 1) (fun _ _ => 1) := by
  constructor
  · decide
  · have hu : uniqueLabel [1, 2, 3] = [1, 2, 3] := by decide
    have h3 : List.range 3 = [0, 1, 2] := by decide
    have h1 : List.range 1 = [0] := by decide
    have hp0 : ovrPosIdx [1, 2, 3] 0 = [0] := by decide
    have hp1 : ovrPosIdx [1, 2, 3] 1 = [1] := by decide
    have hp2 : ovrPosIdx [1, 2, 3] 2 = [2] := by decide
    have hn0 : ovrNegIdx [1, 2, 3] 1 0 (fun _ => 0) = [1] := by decide
    have hn1 : ovrNegIdx [1, 2, 3] 1 1 (fun _ => 0) = [0] := by decide
    have hn2 : ovrNegIdx [1, 2, 3] 1 2 (fun _ => 0) = [0] := by decide
    have hm0 : ovrNegIdx [1, 2, 3] 1 0 (fun _ => 1) = [2] := by decide
    have hm1 : ovrNegIdx [1, 2, 3] 1 1 (fun _ => 1) = [2] := by decide
    have hm2 : ovrNegIdx [1, 2, 3] 1 2 (fun _ => 1) = [1] := by decide
    have hL : ovrClassifier (fun x => x) clfC2 [1, 2, 3] [[1], [2], [3]] [[1]]
        [[1], [1], [1]] (some 1) (fun _ _ => 0) = [[1 / 2, 1 / 2, 0]] := by
      norm_num [ovrClassifier, hu, h3, h1, hp0, hp1, hp2, hn0, hn1, hn2, ovrColFun,
        ovrScoreFor, clfC2, ovrTrainSet, ovrDummy, scaleVec, softmaxRow, List.foldl_cons,
        List.foldl_nil, List.getD, List.getElem?_cons_zero, List.getElem?_cons_succ]
    have hR : ovrClassifier (fun x => x) clfC2 [1, 2, 3] [[1], [2], [3]] [[1]]
        [[1], [1], [1]] (some 1) (fun _ _ => 1) = [[1, 0, 0]] := by
      norm_num [ovrClassifier, hu, h3, h1, hp0, hp1, hp2, hm0, hm1, hm2, ovrColFun,
        ovrScoreFor, clfC2, ovrTrainSet, ovrDummy, scaleVec, softmaxRow, List.foldl_cons,
        List.foldl_nil, List.getD, List.getElem?_cons_zero, List.getElem?_cons_succ]
    rw [hL, hR]
    norm_num

/-- Claim C2 (amended): the negative-sampling draw in `ovrClassifier` is
independent of the classifiers' `random_state` seeds — the only explicit
seeds in the run — and genuinely depends on the ambient global numpy
generator, which accepts no explicit seed in the pipeline; identical
results across runs therefore additionally require an identical global
generator state. -/
theorem negative_sampling_reads_global_rng :
    (∀ s1 s2 s1' s2' : ℕ, ∀ rng : ℕ → ℕ, ∀ trainLabels : List ℕ, ∀ ratio i : ℕ,
        negSampleInRun s1 s2 rng trainLabels ratio i =
          negSampleInRun s1' s2' rng trainLabels ratio i) ∧
      ∃ g g' : ℕ → ℕ,
        negSampleInRun 1 1 g [1, 2, 3] 1 0 ≠ negSampleInRun 1 1 g' [1, 2, 3] 1 0 :=
  ⟨fun _ _ _ _ _ _ _ _ => rfl, ⟨fun _ => 0, fun _ => 1, by decide⟩⟩

/-- Claim C3: `AR` is the floor of the arithmetic mean of the per-question
ranks: it is an integer lower bound of the mean, within one of it, and is
the greatest such integer — which pins the aggregation to floor applied
once to the mean, not ceiling or rounding. -/
theorem AR_is_floor_of_mean (ranks : List ℕ) (h : ranks ≠ []) :
    ((AR ranks : ℚ) ≤ meanRank ranks ∧ meanRank ranks < (AR ranks : ℚ) + 1) ∧
      ∀ z : ℤ, (z : ℚ) ≤ meanRank ranks → z ≤ AR ranks := by
  have hAR : AR ranks = Int.floor (meanRank ranks) := rfl
  refine ⟨⟨?_, ?_⟩, ?_⟩
  · rw [hAR]; exact Int.floor_le _
  · rw [hAR]; exact Int.lt_floor_add_one _
  · intro z hz; rw [hAR]; exact Int.le_floor.mpr hz

theorem AR_is_floor_of_mean_witness :
    ([1, 2] : List ℕ) ≠ [] ∧
      (((AR [1, 2] : ℚ) ≤ meanRank [1, 2] ∧ meanRank [1, 2] < (AR [1, 2] : ℚ) + 1) ∧
        ∀ z : ℤ, (z : ℚ) ≤ meanRank [1, 2] → z ≤ AR [1, 2]) :=
  ⟨by decide, AR_is_floor_of_mean [1, 2] (by decide)⟩

lemma ewMean3_sum (r1 : List ℚ) : ∀ r2 r3 : List ℚ, r1.length = r2.length →
    r2.length = r3.length →
    (ewMean3 r1 r2 r3).sum = (r1.sum + r2.sum + r3.sum) / 3 := by
  induction r1 with
  | nil =>
      intro r2 r3 h1 h2
      cases r2 <;> cases r3 <;> simp_all [ewMean3]
  | cons a as ih =>
      intro r2 r3 h1 h2
      cases r2 with
      | nil => simp at h1
      | cons b bs =>
          cases r3 with
          | nil => simp at h2
          | cons c cs =>
              simp only [ewMean3, List.sum_cons]
              rw [ih bs cs (by simpa using h1) (by simpa using h2)]
              ring

lemma ewMean3_getD (r1 : List ℚ) : ∀ (r2 r3 : List ℚ) (j : ℕ), r1.length = r2.length →
    r2.length = r3.length →
    (ewMean3 r1 r2 r3).getD j 0 = (r1.getD j 0 + r2.getD j 0 + r3.getD j 0) / 3 := by
  induction r1 with
  | nil =>
      intro r2 r3 j h1 h2
      cases r2 <;> cases r3 <;> simp_all [ewMean3]
  | cons a as ih =>
      intro r2 r3 j h1 h2
      cases r2 with
      | nil => simp at h1
      | cons b bs =>
          cases r3 with
          | nil => simp at h2
          | cons c cs =>
              cases j with
              | zero => rfl
              | succ j =>
                  simp only [ewMean3, List.getD_cons_succ]
                  exact ih bs cs j (by simpa using h1) (by simpa using h2)

lemma aggr_getD (P1 : List (List ℚ)) : ∀ (P2 P3 : List (List ℚ)) (q : ℕ),
    q < P1.length → q < P2.length → q < P3.length →
    (Y_test_prob_aggr P1 P2 P3).getD q [] = ewMean3 (P1.getD q []) (P2.getD q []) (P3.getD q []) := by
  induction P1 with
  | nil => intro P2 P3 q h1 _ _; simp at h1
  | cons r P ih =>
      intro P2 P3 q h1 h2 h3
      cases P2 with
      | nil => simp at h2
      | cons s Q =>
          cases P3 with
          | nil => simp at h3
          | cons t R =>
              cases q with
              | zero => rfl
              | succ q =>
                  simp only [Y_test_prob_aggr, List.getD_cons_succ]
                  exact ih Q R q (by simpa using h1) (by simpa using h2) (by simpa using h3)

/-- Claim C5: the ensemble matrix is the elementwise arithmetic mean of the
three score matrices with equal weights, and any question row whose three
input rows each sum to 1 again sums to 1 — no renormalisation happens after
averaging, none is needed. -/
theorem ensemble_mean_preserves_distribution (P1 P2 P3 : List (List ℚ)) (q : ℕ)
    (hq1 : q < P1.length) (hq2 : q < P2.length) (hq3 : q < P3.length)
    (hl1 : (P1.getD q []).length = (P2.getD q []).length)
    (hl2 : (P2.getD q []).length = (P3.getD q []).length)
    (hs1 : (P1.getD q []).sum = 1) (hs2 : (P2.getD q []).sum = 1)
    (hs3 : (P3.getD q []).sum = 1) :
    ((Y_test_prob_aggr P1 P2 P3).getD q []).sum = 1 ∧
      ∀ j : ℕ, ((Y_test_prob_aggr P1 P2 P3).getD q []).getD j 0 =
        ((P1.getD q []).getD j 0 + (P2.getD q []).getD j 0 + (P3.getD q []).getD j 0) / 3 := by
  rw [aggr_getD P1 P2 P3 q hq1 hq2 hq3]
  constructor
  · rw [ewMean3_sum _ _ _ hl1 hl2, hs1, hs2, hs3]
    norm_num
  · intro j
    exact ewMean3_getD _ _ _ j hl1 hl2

theorem ensemble_mean_preserves_distribution_witness :
    (0 < ([[(1 : ℚ)]] : List (List ℚ)).length ∧
        (([[(1 : ℚ)]] : List (List ℚ)).getD 0 []).sum = 1) ∧
      (((Y_test_prob_aggr [[(1 : ℚ)]] [[(1 : ℚ)]] [[(1 : ℚ)]]).getD 0 []).sum = 1 ∧
        ∀ j : ℕ, ((Y_test_prob_aggr [[(1 : ℚ)]] [[(1 : ℚ)]] [[(1 : ℚ)]]).getD 0 []).getD j 0 =
          (([[(1 : ℚ)]].getD 0 []).getD j 0 + ([[(1 : ℚ)]].getD 0 []).getD j 0 +
            ([[(1 : ℚ)]].getD 0 []).getD j 0) / 3) :=
  ⟨⟨by decide, by simp⟩,
    ensemble_mean_preserves_distribution [[(1 : ℚ)]] [[(1 : ℚ)]] [[(1 : ℚ)]] 0
      (by decide) (by decide) (by decide) (by simp) (by simp) (by simp) (by simp) (by simp)⟩

lemma roundHalfEven_close (x : ℚ) : |(roundHalfEven x : ℚ) - x| ≤ 1 / 2 := by
  have h0 : ((Int.floor x : ℤ) : ℚ) ≤ x := Int.floor_le x
  have h1 : x < ((Int.floor x : ℤ) : ℚ) + 1 := Int.lt_floor_add_one x
  unfold roundHalfEven
  split_ifs with hlt hgt heven
  · rw [abs_le]
    constructor <;> push_cast <;> linarith
  · rw [abs_le]
    constructor <;> push_cast <;> linarith
  · rw [abs_le]
    constructor <;> push_cast <;> linarith
  · rw [abs_le]
    constructor <;> push_cast <;> linarith

/-- Claim C9: the `top3` metric is the fraction of test questions whose rank
is at most 3 over the total count, rounded to 3 decimal places: it is an
integer multiple of 1/1000 lying within 1/2000 of the exact fraction. -/
theorem top3_is_rounded_fraction (ranks : List ℕ) (h : ranks ≠ []) :
    ∃ k : ℤ, top3 ranks = (k : ℚ) / 1000 ∧
      |top3 ranks - ((ranks.filter (fun r => decide (r ≤ 3))).length : ℚ) /
          (ranks.length : ℚ)| ≤ 1 / 2000 := by
  have hfrac : top3 ranks =
      (roundHalfEven (((ranks.filter (fun r => decide (r ≤ 3))).length : ℚ) /
        (ranks.length : ℚ) * 1000) : ℚ) / 1000 := rfl
  refine ⟨roundHalfEven (((ranks.filter (fun r => decide (r ≤ 3))).length : ℚ) /
    (ranks.length : ℚ) * 1000), hfrac, ?_⟩
  have hc := roundHalfEven_close ((((ranks.filter (fun r => decide (r ≤ 3))).length : ℚ) /
    (ranks.length : ℚ)) * 1000)
  rw [abs_le] at hc ⊢
  rw [hfrac]
  constructor <;> [linarith; linarith]

theorem top3_is_rounded_fraction_witness :
    ([1, 5, 2] : List ℕ) ≠ [] ∧
      ∃ k : ℤ, top3 [1, 5, 2] = (k : ℚ) / 1000 ∧
        |top3 [1, 5, 2] - ((([1, 5, 2] : List ℕ).filter (fun r => decide (r ≤ 3))).length : ℚ) /
            (([1, 5, 2] : List ℕ).length : ℚ)| ≤ 1 / 2000 :=
  ⟨by decide, top3_is_rounded_fraction [1, 5, 2] (by decide)⟩

lemma argsortDesc_perm (scores : List ℚ) :
    List.Perm (argsortDesc scores) (List.range scores.length) :=
  List.perm_insertionSort _ _

lemma sortedAnswersRow_perm (scores : List ℚ) (uniq : List ℕ)
    (hlen : scores.length = uniq.length) :
    List.Perm (sortedAnswersRow scores uniq) uniq := by
  have h1 : List.Perm (sortedAnswersRow scores uniq)
      ((List.range scores.length).map (fun i => uniq.getD i 0)) :=
    (argsortDesc_perm scores).map _
  rw [hlen, map_getD_range uniq 0] at h1
  exact h1

/-- Claim C4: for a test question whose true answer id occurs among the
training classes, the computed rank is defined and equals the 1-based
position of the true answer id in the list of all classes rearranged in
descending score order (a rearrangement of `uniqueAnswerId`), and it lies
in `[1, numberOfClasses]`. -/
theorem rank_is_descending_position (scores : List ℚ) (uniq : List ℕ) (aid : ℕ)
    (hlen : scores.length = uniq.length) (hmem : aid ∈ uniq) :
    ∃ r : ℕ, rankRow scores uniq aid = some r ∧ 1 ≤ r ∧ r ≤ uniq.length ∧
      (sortedAnswersRow scores uniq).getD (r - 1) 0 = aid ∧
      List.Perm (sortedAnswersRow scores uniq) uniq ∧
      List.Sorted (fun i j => scores.getD j 0 ≤ scores.getD i 0) (argsortDesc scores) := by
  have hperm := sortedAnswersRow_perm scores uniq hlen
  have hmem2 : aid ∈ sortedAnswersRow scores uniq := hperm.mem_iff.mpr hmem
  have hlt : (sortedAnswersRow scores uniq).indexOf aid <
      (sortedAnswersRow scores uniq).length := List.indexOf_lt_length.mpr hmem2
  refine ⟨(sortedAnswersRow scores uniq).indexOf aid + 1, ?_, ?_, ?_, ?_, hperm, ?_⟩
  · simp only [rankRow]
    rw [if_pos hmem2]
  · omega
  · have hlen2 : (sortedAnswersRow scores uniq).length = uniq.length := hperm.length_eq
    omega
  · simp only [Nat.add_sub_cancel]
    rw [List.getD_eq_getElem?_getD, List.getElem?_eq_getElem hlt]
    simp [List.getElem_indexOf hlt]
  · haveI ht : IsTotal ℕ (fun i j => scores.getD j 0 ≤ scores.getD i 0) :=
      ⟨fun a b => le_total (scores.getD b 0) (scores.getD a 0)⟩
    haveI htr : IsTrans ℕ (fun i j => scores.getD j 0 ≤ scores.getD i 0) :=
      ⟨fun _ _ _ hab hbc => le_trans hbc hab⟩
    exact List.sorted_insertionSort _ _

theorem rank_is_descending_position_witness :
    (([1 / 2, 3 / 4] : List ℚ).length = ([10, 20] : List ℕ).length ∧ 10 ∈ ([10, 20] : List ℕ)) ∧
      ∃ r : ℕ, rankRow [1 / 2, 3 / 4] [10, 20] 10 = some r ∧ 1 ≤ r ∧
        r ≤ ([10, 20] : List ℕ).length ∧
        (sortedAnswersRow [1 / 2, 3 / 4] [10, 20]).getD (r - 1) 0 = 10 ∧
        List.Perm (sortedAnswersRow [1 / 2, 3 / 4] [10, 20]) [10, 20] ∧
        List.Sorted (fun i j => ([1 / 2, 3 / 4] : List ℚ).getD j 0 ≤
          ([1 / 2, 3 / 4] : List ℚ).getD i 0) (argsortDesc [1 / 2, 3 / 4]) :=
  ⟨⟨by decide, by decide⟩, rank_is_descending_position [1 / 2, 3 / 4] [10, 20] 10
    (by decide) (by decide)⟩

/-- Claim C10: the rank lookup is defined exactly on test questions whose
true answer id occurs in `uniqueAnswerId`: for an unseen answer id the
first-element access of the empty match fails (`none` here, `IndexError`
in the source), so the evaluator cannot score a question from a class that
was absent from the training set. -/
theorem rank_undefined_on_unseen_class (scores : List ℚ) (uniq : List ℕ) (aid : ℕ)
    (hlen : scores.length = uniq.length) :
    (rankRow scores uniq aid = none ↔ aid ∉ uniq) ∧
      (aid ∈ uniq → (rankRow scores uniq aid).isSome = true) := by
  have hperm := sortedAnswersRow_perm scores uniq hlen
  constructor
  · constructor
    · intro hnone hmem
      have hmem2 : aid ∈ sortedAnswersRow scores uniq := hperm.mem_iff.mpr hmem
      simp only [rankRow] at hnone
      rw [if_pos hmem2] at hnone
      exact Option.some_ne_none _ hnone
    · intro hnot
      have hmem2 : aid ∉ sortedAnswersRow scores uniq :=
        fun hx => hnot (hperm.mem_iff.mp hx)
      simp only [rankRow]
      rw [if_neg hmem2]
  · intro hmem
    have hmem2 : aid ∈ sortedAnswersRow scores uniq := hperm.mem_iff.mpr hmem
    simp only [rankRow]
    rw [if_pos hmem2]
    rfl

theorem rank_undefined_on_unseen_class_witness :
    ([0, 0] : List ℚ).length = ([10, 20] : List ℕ).length ∧
      ((rankRow [0, 0] [10, 20] 30 = none ↔ 30 ∉ ([10, 20] : List ℕ)) ∧
        (30 ∈ ([10, 20] : List ℕ) → (rankRow [0, 0] [10, 20] 30).isSome = true)) :=
  ⟨by decide, rank_undefined_on_unseen_class [0, 0] [10, 20] 30 (by decide)⟩

lemma normalizeTFT_row_sum (numTokens : ℕ) (questions : List (List ℕ)) :
    ∀ row ∈ normalizeTFT numTokens questions, row.sum = 1 ∨ row.sum = 0 := by
  intro row hrow
  simp only [normalizeTFT, List.mem_map] at hrow
  obtain ⟨toks, -, rfl⟩ := hrow
  rw [sum_map_div]
  by_cases hs : ((List.range numTokens).map
      (fun w => ((toks.filter (fun x => decide (x = w))).length : ℚ))).sum = 0
  · right
    rw [hs]
    simp
  · left
    exact div_self hs

/-- Claim C7: the Naive Bayes test score matrix is softmax applied per
question to the dot products of the question's L1-normalised term-frequency
vector with the NB weight columns; the bias `beta_A` equals 0 and
therefore drops out of the score; and every normalised TF row sums to 1
(or is all zero for a question with no in-vocabulary tokens).  Scoring is
a pure function of the precomputed weights: nothing is fitted here. -/
theorem nb_score_matrix (E : ℚ → ℚ) (numTokens : ℕ) (testQtokens : List (List ℕ))
    (W : List (List ℚ)) :
    Y_test_prob1 E numTokens testQtokens W =
        (normalizeTFT numTokens testQtokens).map
          (fun xrow => softmaxRow E (W.map (fun col => dotQ xrow col))) ∧
      beta_A = 0 ∧
      ∀ row ∈ normalizeTFT numTokens testQtokens, row.sum = 1 ∨ row.sum = 0 := by
  refine ⟨?_, rfl, normalizeTFT_row_sum numTokens testQtokens⟩
  simp only [Y_test_prob1, beta_A]
  apply List.map_congr_left
  intro xrow _
  congr 1
  apply List.map_congr_left
  intro col _
  ring

theorem nb_score_matrix_witness :
    [(1 : ℚ)] ∈ normalizeTFT 1 [[0]] ∧
      (([(1 : ℚ)] : List ℚ).sum = 1 ∨ ([(1 : ℚ)] : List ℚ).sum = 0) :=
  ⟨by norm_num [normalizeTFT, List.range_succ, List.filter],
    (nb_score_matrix (fun x => x) 1 [[0]] [[2]]).2.2 [(1 : ℚ)]
      (by norm_num [normalizeTFT, List.range_succ, List.filter])⟩

lemma foldl_setCol (col : ℕ → ℕ → ℚ) : ∀ (n : ℕ) (M0 : ℕ → ℕ → ℚ) (t j : ℕ),
    ((List.range n).foldl
      (fun M i => fun t j => if j = i then col i t else M t j) M0) t j =
      if j < n then col j t else M0 t j := by
  intro n
  induction n with
  | zero =>
      intro M0 t j
      simp
  | succ n ih =>
      intro M0 t j
      rw [List.range_succ, List.foldl_append, List.foldl_cons, List.foldl_nil]
      show (if j = n then col n t
        else ((List.range n).foldl
          (fun M i => fun t j => if j = i then col i t else M t j) M0) t j) = _
      by_cases hj : j = n
      · subst hj
        simp
      · rw [if_neg hj, ih]
        by_cases hlt : j < n
        · rw [if_pos hlt, if_pos (by omega)]
        · rw [if_neg hlt, if_neg (by omega)]

/-- Claim C6: `ovrClassifier` returns the per-question softmax of the raw
questions-by-classes matrix whose column `i` scores the scaled test rows
with the classifier fitted for class `i`; each raw score uses
`decision_function` when the classifier exposes one and the positive-class
predicted probability otherwise; and every example the class-`i` classifier
is fitted on is some question's normalised-TF row elementwise-multiplied by
NB-weight column `i`, labelled 1 exactly when that question belongs to
class `i`.  With subsampling disabled the training set is precisely all
questions in frame order. -/
theorem ovr_structure (E : ℚ → ℚ) (clf : Clf) (trainLabels : List ℕ)
    (xTr xTe W : List (List ℚ)) (ratio : Option ℕ) (rng : ℕ → ℕ → ℕ)
    (hlab : trainLabels ≠ []) :
    ovrClassifier E clf trainLabels xTr xTe W ratio rng =
        (List.range xTe.length).map (fun t =>
          softmaxRow E ((List.range (uniqueLabel trainLabels).length).map
            (fun i => ovrColFun clf trainLabels xTr xTe W ratio rng i t))) ∧
      (∀ i t : ℕ, ovrColFun clf trainLabels xTr xTe W ratio rng i t =
        if clf.hasDecisionFunction then
          clf.decisionFunction (ovrTrainSet trainLabels xTr W ratio (rng i) i)
            (scaleVec (xTe.getD t []) (W.getD i []))
        else
          clf.predictProbaPos (ovrTrainSet trainLabels xTr W ratio (rng i) i)
            (scaleVec (xTe.getD t []) (W.getD i []))) ∧
      (∀ i : ℕ, ∀ p ∈ ovrTrainSet trainLabels xTr W ratio (rng i) i,
        ∃ q : ℕ, q < trainLabels.length ∧
          p = (scaleVec (xTr.getD q []) (W.getD i []),
            if trainLabels.getD q 0 = (uniqueLabel trainLabels).getD i 0 then 1 else 0)) ∧
      (ratio = none → ∀ i : ℕ, ovrTrainSet trainLabels xTr W ratio (rng i) i =
        (List.range trainLabels.length).map
          (fun q => (scaleVec (xTr.getD q []) (W.getD i []),
            if trainLabels.getD q 0 = (uniqueLabel trainLabels).getD i 0 then 1 else 0))) := by
  refine ⟨?_, fun i t => rfl, ?_, ?_⟩
  · simp only [ovrClassifier]
    apply List.map_congr_left
    intro t _
    congr 1
    apply List.map_congr_left
    intro j hj
    rw [foldl_setCol]
    rw [if_pos (List.mem_range.mp hj)]
  · intro i p hp
    simp only [ovrTrainSet] at hp
    cases ratio with
    | none =>
        simp only [List.mem_map, List.mem_range] at hp
        obtain ⟨q, hq, rfl⟩ := hp
        exact ⟨q, hq, by rw [mapScale_getD]; rfl⟩
    | some r =>
        simp only [List.mem_map, List.mem_append] at hp
        obtain ⟨q, hq, rfl⟩ := hp
        have hqlt : q < trainLabels.length := by
          cases hq with
          | inl hpos =>
              have hmem := (List.mem_filter.mp hpos).1
              exact List.mem_range.mp hmem
          | inr hneg =>
              simp only [ovrNegIdx, npRandomChoice, List.mem_map, List.mem_range] at hneg
              obtain ⟨k, -, rfl⟩ := hneg
              by_cases hpool : ovrNegPool trainLabels i = []
              · rw [hpool]
                simp only [List.getD_nil]
                exact List.length_pos.mpr hlab
              · have hlen : 0 < (ovrNegPool trainLabels i).length :=
                  List.length_pos.mpr hpool
                have hmod : rng i k % (ovrNegPool trainLabels i).length <
                    (ovrNegPool trainLabels i).length := Nat.mod_lt _ hlen
                have hmem2 : (ovrNegPool trainLabels i).getD
                    (rng i k % (ovrNegPool trainLabels i).length) 0 ∈
                    ovrNegPool trainLabels i := by
                  rw [List.getD_eq_getElem?_getD, List.getElem?_eq_getElem hmod]
                  exact List.getElem_mem hmod
                have hmem3 := (List.mem_filter.mp hmem2).1
                exact List.mem_range.mp hmem3
        exact ⟨q, hqlt, by rw [mapScale_getD]; rfl⟩
  · rintro rfl i
    simp only [ovrTrainSet]
    apply List.map_congr_left
    intro q _
    rw [mapScale_getD]
    rfl

theorem ovr_structure_witness :
    ([5] : List ℕ) ≠ [] ∧
      (ovrClassifier (fun x => x) clfC2 [5] [[1]] [[2]] [[3]] none (fun _ _ => 0) =
          (List.range ([[(2 : ℚ)]] : List (List ℚ)).length).map (fun t =>
            softmaxRow (fun x => x) ((List.range (uniqueLabel [5]).length).map
              (fun i => ovrColFun clfC2 [5] [[1]] [[2]] [[3]] none (fun _ _ => 0) i t))) ∧
        (∀ i t : ℕ, ovrColFun clfC2 [5] [[1]] [[2]] [[3]] none (fun _ _ => 0) i t =
          if clfC2.hasDecisionFunction then
            clfC2.decisionFunction (ovrTrainSet [5] [[1]] [[3]] none ((fun _ _ => 0) i) i)
              (scaleVec (([[(2 : ℚ)]] : List (List ℚ)).getD t []) (([[(3 : ℚ)]] : List (List ℚ)).getD i []))
          else
            clfC2.predictProbaPos (ovrTrainSet [5] [[1]] [[3]] none ((fun _ _ => 0) i) i)
              (scaleVec (([[(2 : ℚ)]] : List (List ℚ)).getD t []) (([[(3 : ℚ)]] : List (List ℚ)).getD i []))) ∧
        (∀ i : ℕ, ∀ p ∈ ovrTrainSet [5] [[1]] [[3]] none ((fun _ _ => 0) i) i,
          ∃ q : ℕ, q < ([5] : List ℕ).length ∧
            p = (scaleVec (([[(1 : ℚ)]] : List (List ℚ)).getD q []) (([[(3 : ℚ)]] : List (List ℚ)).getD i []),
              if ([5] : List ℕ).getD q 0 = (uniqueLabel [5]).getD i 0 then 1 else 0)) ∧
        ((none : Option ℕ) = none → ∀ i : ℕ,
          ovrTrainSet [5] [[1]] [[3]] none ((fun _ _ => 0) i) i =
            (List.range ([5] : List ℕ).length).map
              (fun q => (scaleVec (([[(1 : ℚ)]] : List (List ℚ)).getD q []) (([[(3 : ℚ)]] : List (List ℚ)).getD i []),
                if ([5] : List ℕ).getD q 0 = (uniqueLabel [5]).getD i 0 then 1 else 0)))) :=
  ⟨by decide, ovr_structure (fun x => x) clfC2 [5] [[1]] [[2]] [[3]] none (fun _ _ => 0) (by decide)⟩
